import Mathlib

/-!
Verification of the fakeroot sandbox-construction subsystem of the
`unshare` crate (src/fakeroot.rs, src/config.rs).

The embedding is shallow:

* Paths (Rust `std::path::Path`) are represented parsed into a list of
  components plus an absolute flag, matching `Path::components` /
  `Path::parent` / `PartialEq for Path` for paths without `.` components
  (none of the paths handled by this subsystem use `.`).  Rendering a
  path back to a string (`Path::to_str`) joins the components with a
  single separator, as Rust does for the intermediate paths produced by
  `Path::parent`.
* `CString` values stored in the configuration are plain `String`s
  (`to_cstring` only adds a terminating NUL byte).
* A Rust panic coming from `Option::expect` is an `Except.error`
  carrying the panic message; the panic aborts before any state change,
  so no configuration value escapes on that branch.
* The privileged builder `build_fakeroot` performs raw syscalls.  The
  kernel is an oracle `SyscallEnv : Sys -> Int` giving each syscall event
  its return value; the builder is embedded as a function returning the
  list of syscall events it performed, in order, together with its
  boolean result.
-/

/-- Namespace kinds, as in src/namespace.rs (only the kind set matters
for this subsystem). -/
inductive Namespace where
  | Mount | Uts | Ipc | User | Pid | Net | Cgroup
deriving DecidableEq, Repr

/-- One mount registered for the fakeroot, from src/fakeroot.rs
(`struct FakeRootMount`).  `is_special_fs` means `src` is a filesystem
type such as "proc" or "tmpfs" rather than a host path. -/
structure FakeRootMount where
  mountpoint : String
  mountpoint_outer : String
  src : String
  readonly : Bool
  is_special_fs : Bool
deriving DecidableEq, Repr

/-- The spawn configuration, from src/config.rs (`struct Config`).
Fields not touched by the fakeroot subsystem are carried with
simplified types (signals as numbers, `CloneFlags` as a list of
namespace kinds, the `setns` handle map as an association list) so that
frame conditions can be stated about them.  The four fakeroot fields
are spelled with an underscore between fake and root in the Rust
source; the underscore is dropped here. -/
structure Config where
  death_sig : Option Int
  work_dir : Option String
  uid : Option Nat
  gid : Option Nat
  supplementary_gids : Option (List Nat)
  id_maps : Option (List (Nat × Nat × Nat) × List (Nat × Nat × Nat))
  namespaces : List Namespace
  setns_namespaces : List (Namespace × Int)
  restore_sigmask : Bool
  make_group_leader : Bool
  fakeroot_base : Option String
  fakeroot_mounts : List FakeRootMount
  fakeroot_mkdirs : List String
  fakeroot_touchs : List String
deriving DecidableEq, Repr

/-- `Config::default()` from src/config.rs; SIGKILL is signal 9. -/
def Config.default : Config where
  death_sig := some 9
  work_dir := none
  uid := none
  gid := none
  supplementary_gids := none
  id_maps := none
  namespaces := []
  setns_namespaces := []
  restore_sigmask := true
  make_group_leader := false
  fakeroot_base := none
  fakeroot_mounts := []
  fakeroot_mkdirs := []
  fakeroot_touchs := []

/-- A parsed path: the `absolute` flag (leading separator) and the list
of components, each a list of characters.  Mirrors the component view
of Rust `Path` (for paths without `.` components). -/
structure RPath where
  absolute : Bool
  comps : List (List Char)
deriving DecidableEq, Repr

/-- Split a character list on the separator, dropping empty chunks,
like `Path::components` does. -/
def splitSlashAux (acc : List Char) : List Char → List (List Char)
  | [] => if acc.isEmpty then [] else [acc.reverse]
  | c :: cs =>
    if c = '/' then
      if acc.isEmpty then splitSlashAux [] cs else acc.reverse :: splitSlashAux [] cs
    else splitSlashAux (c :: acc) cs

/-- Parse a string into an `RPath`, as `Path::new` views it. -/
def parsePath (s : String) : RPath where
  absolute := match s.data with
    | '/' :: _ => true
    | _ => false
  comps := splitSlashAux [] s.data

/-- `Path::parent`: `None` for the root and for the empty path,
otherwise the path with the last component removed. -/
def RPath.parent (p : RPath) : Option RPath :=
  match p.comps with
  | [] => none
  | _ :: _ => some ⟨p.absolute, p.comps.dropLast⟩

/-- Join components with single separators. -/
def joinComps : List (List Char) → List Char
  | [] => []
  | [c] => c
  | c :: cs => c ++ '/' :: joinComps cs

/-- Render a path back to characters (`Path::to_str`). -/
def RPath.render (p : RPath) : List Char :=
  (if p.absolute then ['/'] else []) ++ joinComps p.comps

/-- Render a path back to a string. -/
def RPath.toStr (p : RPath) : String := ⟨p.render⟩

/-- The staging string recorded for a directory: `base`, a separator,
then the rendered directory, exactly as the `format!` call in the Rust
code produces it (note that for an absolute `dir` this contains a
doubled separator). -/
def stagePath (base : String) (dir : RPath) : String :=
  base ++ "/" ++ dir.toStr

/-- A well-formed path: every component is nonempty and free of the
separator.  Every path produced by `parsePath` is well-formed. -/
def RPath.wf (p : RPath) : Prop :=
  ∀ c ∈ p.comps, c ≠ [] ∧ '/' ∉ c

/-- The staging strings pushed by `Command::fakeroot_mkdir` for a
directory, shortest (outermost ancestor) first, computed by structural
recursion on the reversed component list.  The theorem
`fakeroot_mkdir_parent_step` below shows this agrees with the
parent-directed recursion written in the Rust source. -/
def mkdirAux (base : String) (abs : Bool) : List (List Char) → List String
  | [] => []
  | c :: rest => mkdirAux base abs rest ++ [stagePath base ⟨abs, (c :: rest).reverse⟩]

/-- `Command::fakeroot_mkdir` from src/fakeroot.rs: recursively record
a staging `mkdir` entry for every ancestor of `dir` and for `dir`
itself, ancestors first, stopping at the filesystem root (whose
`parent` is `None`). -/
def Command.fakeroot_mkdir (c : Config) (base : String) (dir : RPath) : Config :=
  { c with fakeroot_mkdirs := c.fakeroot_mkdirs ++ mkdirAux base dir.absolute dir.comps.reverse }

/-- The panic message of the `expect` guarding every registration
operation in src/fakeroot.rs. -/
def enableFirstMsg : String := "call fakeroot_enable() first!"

/-- `Command::fakeroot_enable` from src/fakeroot.rs: records the base
directory and unshares the mount namespace.  Modelled from the spec:
the `unshare` helper lives in src/namespace.rs, which is not among the
embedded sources; per the spec it folds `Mount` into the set of
namespaces to create, which is idempotent on the flag set. -/
def Command.fakeroot_enable (c : Config) (base : String) : Config :=
  { c with
    namespaces :=
      if Namespace.Mount ∈ c.namespaces then c.namespaces
      else c.namespaces ++ [Namespace.Mount],
    fakeroot_base := some base }

/-- `Command::fakeroot_mount` from src/fakeroot.rs: panics unless
`fakeroot_enable` was called, records staging mkdir entries for `dst`
and its ancestors, then records the bind mount entry. -/
def Command.fakeroot_mount (c : Config) (src : String) (dst : String) (readonly : Bool) :
    Except String Config :=
  match c.fakeroot_base with
  | none => Except.error enableFirstMsg
  | some base =>
    let c1 := Command.fakeroot_mkdir c base (parsePath dst)
    Except.ok { c1 with
      fakeroot_mounts := c1.fakeroot_mounts ++
        [{ mountpoint := dst
           mountpoint_outer := base ++ "/" ++ dst
           src := src
           readonly := readonly
           is_special_fs := false }] }

/-- `Command::fakeroot_mount_file` from src/fakeroot.rs: panics unless
`fakeroot_enable` was called, records staging mkdir entries for the
parent of `dst`, records `dst` as a file to create, then records the
bind mount entry. -/
def Command.fakeroot_mount_file (c : Config) (src : String) (dst : String) (readonly : Bool) :
    Except String Config :=
  match c.fakeroot_base with
  | none => Except.error enableFirstMsg
  | some base =>
    let c1 := match (parsePath dst).parent with
      | some parent_dir => Command.fakeroot_mkdir c base parent_dir
      | none => c
    let c2 := { c1 with fakeroot_touchs := c1.fakeroot_touchs ++ [base ++ "/" ++ dst] }
    Except.ok { c2 with
      fakeroot_mounts := c2.fakeroot_mounts ++
        [{ mountpoint := dst
           mountpoint_outer := base ++ "/" ++ dst
           src := src
           readonly := readonly
           is_special_fs := false }] }

/-- `Command::fakeroot_filesystem` from src/fakeroot.rs: panics unless
`fakeroot_enable` was called, records staging mkdir entries for `dst`
and its ancestors, then records a virtual-filesystem mount entry,
always read-write. -/
def Command.fakeroot_filesystem (c : Config) (fstype : String) (dst : String) :
    Except String Config :=
  match c.fakeroot_base with
  | none => Except.error enableFirstMsg
  | some base =>
    let c1 := Command.fakeroot_mkdir c base (parsePath dst)
    Except.ok { c1 with
      fakeroot_mounts := c1.fakeroot_mounts ++
        [{ mountpoint := dst
           mountpoint_outer := base ++ "/" ++ dst
           src := fstype
           readonly := false
           is_special_fs := true }] }

/-- A registration call against the mountpoint registry. -/
inductive RegOp where
  | mount (src dst : String) (readonly : Bool)
  | mount_file (src dst : String) (readonly : Bool)
  | mount_filesystem (fstype dst : String)
deriving DecidableEq, Repr

/-- The destination of a registration call. -/
def RegOp.dst : RegOp → String
  | .mount _ d _ => d
  | .mount_file _ d _ => d
  | .mount_filesystem _ d => d

/-- Perform one registration call. -/
def applyOp (c : Config) : RegOp → Except String Config
  | .mount s d r => Command.fakeroot_mount c s d r
  | .mount_file s d r => Command.fakeroot_mount_file c s d r
  | .mount_filesystem f d => Command.fakeroot_filesystem c f d

/-- Perform a sequence of registration calls, stopping at the first
panic. -/
def applyOps (c : Config) : List RegOp → Except String Config
  | [] => Except.ok c
  | op :: rest =>
    match applyOp c op with
    | Except.error e => Except.error e
    | Except.ok c1 => applyOps c1 rest

/-! ## The sandbox builder (`build_fakeroot`) -/

/-- `MS_RDONLY` (libc). -/
def MS_RDONLY : Nat := 1
/-- `MNT_DETACH` (libc). -/
def MNT_DETACH : Nat := 2
/-- `MS_REMOUNT` (libc). -/
def MS_REMOUNT : Nat := 32
/-- `MS_BIND` (libc). -/
def MS_BIND : Nat := 4096
/-- `MS_REC` (libc). -/
def MS_REC : Nat := 16384
/-- `MS_PRIVATE` (libc). -/
def MS_PRIVATE : Nat := 262144
/-- `O_RDONLY` (libc). -/
def O_RDONLY : Nat := 0
/-- `O_CREAT` (libc). -/
def O_CREAT : Nat := 64
/-- `O_CLOEXEC` (libc). -/
def O_CLOEXEC : Nat := 524288

/-- One syscall performed by `build_fakeroot`.  `none` in a string
position is the C NULL pointer; the unused `data` argument of
`mount(2)`, always NULL here, is omitted. -/
inductive Sys where
  | sysMkdir (path : String) (mode : Nat)
  | sysMount (src : Option String) (target : String) (fstype : Option String) (flags : Nat)
  | sysOpen (path : String) (flags : Nat)
  | sysClose (fd : Int)
  | sysPivotRoot (newRoot putOld : String)
  | sysUmount2 (target : String) (flags : Nat)
  | sysChdir (path : String)
  | sysChroot (path : String)
deriving DecidableEq, Repr

/-- The kernel, as an oracle assigning each syscall its return value
(negative means failure, as in the C convention used by the code). -/
def SyscallEnv : Type := Sys → Int

/-- The `mount` call that marks the whole tree private and recursive
(step 1 of the build). -/
def privateTreeEvent : Sys :=
  Sys.sysMount (some "/") "/" none (MS_PRIVATE ||| MS_REC)

/-- The `mount` call creating the tmpfs at the staging base (step 2). -/
def tmpfsEvent (base : String) : Sys :=
  Sys.sysMount none base (some "tmpfs") 0

/-- The `mount` call attaching one entry at its staging path (step 5):
a virtual filesystem mounts by type with no flags, everything else is a
recursive private bind mount of the source. -/
def attachEvent (m : FakeRootMount) : Sys :=
  if m.is_special_fs then Sys.sysMount none m.mountpoint_outer (some m.src) 0
  else Sys.sysMount (some m.src) m.mountpoint_outer none (MS_PRIVATE ||| MS_REC ||| MS_BIND)

/-- The per-mountpoint read-only remount of one entry (step 7),
addressed by its in-sandbox mountpoint. -/
def remountEvent (m : FakeRootMount) : Sys :=
  Sys.sysMount (some m.mountpoint) m.mountpoint none (MS_REMOUNT ||| MS_BIND ||| MS_RDONLY)

/-- The best-effort read-only remount of the new root (step 7). -/
def rootRemountEvent : Sys :=
  Sys.sysMount (some "/") "/" none (MS_REMOUNT ||| MS_BIND ||| MS_RDONLY)

/-- Materializing one placeholder file (step 4): open with
`O_RDONLY | O_CREAT | O_CLOEXEC`, close the descriptor if the open
succeeded; failures are ignored. -/
def touchTrace (env : SyscallEnv) (file : String) : List Sys :=
  let e := Sys.sysOpen file (O_RDONLY ||| O_CREAT ||| O_CLOEXEC)
  if env e ≥ 0 then [e, Sys.sysClose (env e)] else [e]

/-- Step 5 of `build_fakeroot`: attach every mount in order, aborting
on the first failure. -/
def attachPhase (env : SyscallEnv) : List FakeRootMount → List Sys × Bool
  | [] => ([], true)
  | m :: rest =>
    if env (attachEvent m) < 0 then ([attachEvent m], false)
    else
      let r := attachPhase env rest
      (attachEvent m :: r.1, r.2)

/-- Step 6 of `build_fakeroot`: try `pivot_root(base, base)` and, on
success, detach-unmount the old root without checking the result; on
failure fall back to `chdir(base)`, bind-mounting "." onto "/" and
`chroot(".")`, checking only the `chroot` result. -/
def rootSwitch (env : SyscallEnv) (base : String) : List Sys × Bool :=
  if env (Sys.sysPivotRoot base base) ≥ 0 then
    ([Sys.sysPivotRoot base base, Sys.sysUmount2 "/" MNT_DETACH], true)
  else
    ([Sys.sysPivotRoot base base, Sys.sysChdir base,
      Sys.sysMount (some ".") "/" none 0, Sys.sysChroot "."],
     decide (env (Sys.sysChroot ".") ≥ 0))

/-- Step 7 of `build_fakeroot`: for every entry flagged read-only, in
order, remount its mountpoint read-only, aborting on the first
failure; entries not flagged read-only are skipped. -/
def remountPhase (env : SyscallEnv) : List FakeRootMount → List Sys × Bool
  | [] => ([], true)
  | m :: rest =>
    if m.readonly then
      if env (remountEvent m) < 0 then ([remountEvent m], false)
      else
        let r := remountPhase env rest
        (remountEvent m :: r.1, r.2)
    else remountPhase env rest

/-- `build_fakeroot` from src/fakeroot.rs: the full privileged syscall
sequence, returning the syscalls performed in order and the boolean
result.  The initial `mkdir(base)`, every staging `mkdir`, every
placeholder file creation, the detach-unmount after a successful
pivot, the `chdir` and "." bind mount of the chroot fallback, and the
read-only remount of the new root are attempted with their results
ignored; all other calls abort the build with `false` on failure. -/
def build_fakeroot (env : SyscallEnv) (base : String) (mkdirs : List String)
    (touchs : List String) (mountpoints : List FakeRootMount) : List Sys × Bool :=
  let t0 : List Sys := [Sys.sysMkdir base 511]
  if env privateTreeEvent < 0 then (t0 ++ [privateTreeEvent], false)
  else if env (tmpfsEvent base) < 0 then (t0 ++ [privateTreeEvent, tmpfsEvent base], false)
  else
    let hd : List Sys := t0 ++ [privateTreeEvent, tmpfsEvent base] ++
      mkdirs.map (fun d => Sys.sysMkdir d 511) ++ (touchs.map (touchTrace env)).flatten
    let ta := attachPhase env mountpoints
    if ta.2 = false then (hd ++ ta.1, false)
    else
      let ts := rootSwitch env base
      if ts.2 = false then (hd ++ ta.1 ++ ts.1, false)
      else
        let tr := remountPhase env mountpoints
        (hd ++ ta.1 ++ ts.1 ++ [rootRemountEvent] ++ tr.1, tr.2)

/-! ## Vocabulary for the stated properties -/

/-- The proper ancestors of the path whose reversed component list is
the argument, shortest first, excluding the filesystem root (or, for a
relative path, the empty path) and the path itself. -/
def ancAux (abs : Bool) : List (List Char) → List RPath
  | [] => []
  | _ :: rest => ancAux abs rest ++ if rest.isEmpty then [] else [⟨abs, rest.reverse⟩]

/-- Every proper ancestor directory of `p`, down to the filesystem
root exclusive, shortest first. -/
def properAncestors (p : RPath) : List RPath := ancAux p.absolute p.comps.reverse

/-- Each ancestor appears in the list before every entry for one of
its descendants: wherever the list contains an entry that is the
staging string of a well-formed path `p`, the staging strings of all
proper ancestors of `p` occur strictly earlier. -/
def ancestorsFirst (base : String) (l : List String) : Prop :=
  ∀ l₁ x l₂, l = l₁ ++ x :: l₂ →
    ∀ p : RPath, p.wf → x = stagePath base p →
    ∀ a ∈ properAncestors p, stagePath base a ∈ l₁

/-! ## Concrete scenarios and kernel oracles used as witnesses -/

/-- A policy with fakeroot enabled at base "/sandbox". -/
def sandboxCfg : Config := Command.fakeroot_enable Config.default "/sandbox"

/-- Scenario A of the spec: register a read-only bind mount of "/bin"
at "/bin". -/
def scenarioA : Except String Config :=
  Command.fakeroot_mount sandboxCfg "/bin" "/bin" true

/-- Scenario B of the spec: register a read-write bind mount of the
file "/dev/urandom" at "/dev/urandom". -/
def scenarioB : Except String Config :=
  Command.fakeroot_mount_file sandboxCfg "/dev/urandom" "/dev/urandom" false

/-- A read-only bind mount entry as registered by
`fakeroot_mount("/bin", "/bin", true)` with base "/sb". -/
def roBinMount : FakeRootMount where
  mountpoint := "/bin"
  mountpoint_outer := "/sb//bin"
  src := "/bin"
  readonly := true
  is_special_fs := false

/-- A kernel in which every syscall succeeds. -/
def envAllOk : SyscallEnv := fun _ => 0

/-- A kernel in which exactly the read-only remount of `roBinMount`
fails. -/
def envRemountFails : SyscallEnv := fun s => if s = remountEvent roBinMount then -1 else 0

/-- A kernel in which the pivot primitive is unavailable and
everything else succeeds. -/
def envPivotFails : SyscallEnv :=
  fun s => if s = Sys.sysPivotRoot "/sb" "/sb" then -1 else 0

/-- A kernel in which the pivot primitive is unavailable, the fallback
`chdir` and the detach-unmount also fail, and everything else
succeeds. -/
def envPivotChdirFail : SyscallEnv :=
  fun s =>
    if s = Sys.sysPivotRoot "/sb" "/sb" then -1
    else if s = Sys.sysChdir "/sb" then -7
    else if s = Sys.sysUmount2 "/" MNT_DETACH then -9
    else 0

/-- A concrete registration sequence mixing the three operations. -/
def claim2ops : List RegOp :=
  [RegOp.mount_file "/dev/urandom" "/dev/urandom" false,
   RegOp.mount "/usr" "/usr/local/bin" true,
   RegOp.mount_filesystem "tmpfs" "/tmp"]

/-- The policy produced by running `claim2ops` after enabling fakeroot
at "/sandbox". -/
def claim2cfg : Config :=
  (applyOps (Command.fakeroot_enable Config.default "/sandbox") claim2ops).toOption.getD
    Config.default

/-! ## Path lemmas -/

theorem splitSlashAux_wf :
    ∀ (s : List Char) (acc : List Char), '/' ∉ acc →
      ∀ c ∈ splitSlashAux acc s, c ≠ [] ∧ '/' ∉ c := by
  intro s
  induction s with
  | nil =>
    intro acc hacc c hc
    by_cases h : acc.isEmpty
    · simp [splitSlashAux, h] at hc
    · simp [splitSlashAux, h] at hc
      subst hc
      constructor
      · simpa [List.isEmpty_iff] using h
      · simpa [List.mem_reverse] using hacc
  | cons a t ih =>
    intro acc hacc c hc
    by_cases ha : a = '/'
    · by_cases h : acc.isEmpty
      · simp [splitSlashAux, ha, h] at hc
        exact ih [] (by simp) c hc
      · simp [splitSlashAux, ha, h] at hc
        rcases hc with hc | hc
        · subst hc
          constructor
          · simpa [List.isEmpty_iff] using h
          · simpa [List.mem_reverse] using hacc
        · exact ih [] (by simp) c hc
    · simp [splitSlashAux, ha] at hc
      refine ih (a :: acc) ?_ c hc
      intro hm
      rcases List.mem_cons.1 hm with hm | hm
      · exact ha hm.symm
      · exact hacc hm

theorem parsePath_wf (s : String) : (parsePath s).wf := by
  intro c hc
  exact splitSlashAux_wf s.data [] (by simp) c hc

theorem joinComps_ne_nil {c : List Char} {cs : List (List Char)} (hc : c ≠ []) :
    joinComps (c :: cs) ≠ [] := by
  cases cs with
  | nil => simpa [joinComps] using hc
  | cons d t =>
    simp only [joinComps]
    intro h
    rcases List.append_eq_nil.1 h with ⟨_, h2⟩
    exact List.cons_ne_nil _ _ h2

theorem joinComps_head {L : List (List Char)} (h : ∀ c ∈ L, c ≠ [] ∧ '/' ∉ c) :
    L = [] ∨ ∃ ch t, joinComps L = ch :: t ∧ ch ≠ '/' := by
  cases L with
  | nil => exact Or.inl rfl
  | cons c cs =>
    right
    obtain ⟨hne, hns⟩ := h c (List.mem_cons_self _ _)
    obtain ⟨ch, c1, rfl⟩ := List.exists_cons_of_ne_nil hne
    have hch : ch ≠ '/' := fun he => hns (he ▸ List.mem_cons_self _ _)
    cases cs with
    | nil => exact ⟨ch, c1, by simp [joinComps], hch⟩
    | cons d t => exact ⟨ch, c1 ++ '/' :: joinComps (d :: t), by simp [joinComps], hch⟩

theorem takeWhile_no_slash {c : List Char} (h : '/' ∉ c) :
    c.takeWhile (fun ch => ch != '/') = c ∧ c.dropWhile (fun ch => ch != '/') = [] := by
  induction c with
  | nil => simp
  | cons a t ih =>
    have ha : a ≠ '/' := fun he => h (he ▸ List.mem_cons_self _ _)
    have ht := ih (fun hm => h (List.mem_cons_of_mem _ hm))
    simp [List.takeWhile_cons, List.dropWhile_cons, ha, ht.1, ht.2]

theorem takeWhile_slash_append {c r : List Char} (h : '/' ∉ c) :
    (c ++ '/' :: r).takeWhile (fun ch => ch != '/') = c ∧
      (c ++ '/' :: r).dropWhile (fun ch => ch != '/') = '/' :: r := by
  induction c with
  | nil => simp [List.takeWhile_cons, List.dropWhile_cons]
  | cons a t ih =>
    have ha : a ≠ '/' := fun he => h (he ▸ List.mem_cons_self _ _)
    have ht := ih (fun hm => h (List.mem_cons_of_mem _ hm))
    simp [List.takeWhile_cons, List.dropWhile_cons, ha, ht.1, ht.2]

theorem joinComps_inj :
    ∀ {L₁ L₂ : List (List Char)},
      (∀ c ∈ L₁, c ≠ [] ∧ '/' ∉ c) → (∀ c ∈ L₂, c ≠ [] ∧ '/' ∉ c) →
      joinComps L₁ = joinComps L₂ → L₁ = L₂ := by
  intro L₁
  induction L₁ with
  | nil =>
    intro L₂ _ h2 he
    cases L₂ with
    | nil => rfl
    | cons c cs =>
      exact absurd he.symm (joinComps_ne_nil (h2 c (List.mem_cons_self _ _)).1)
  | cons c cs ih =>
    intro L₂ h1 h2 he
    cases L₂ with
    | nil => exact absurd he (joinComps_ne_nil (h1 c (List.mem_cons_self _ _)).1)
    | cons d ds =>
      have hc := h1 c (List.mem_cons_self _ _)
      have hd := h2 d (List.mem_cons_self _ _)
      cases cs with
      | nil =>
        cases ds with
        | nil => simpa [joinComps] using he
        | cons d2 t2 =>
          exfalso
          simp only [joinComps] at he
          have hL := congrArg (List.dropWhile (fun ch => ch != '/')) he
          rw [(takeWhile_no_slash hc.2).2, (takeWhile_slash_append hd.2).2] at hL
          exact List.cons_ne_nil _ _ hL.symm
      | cons c2 t1 =>
        cases ds with
        | nil =>
          exfalso
          simp only [joinComps] at he
          have hL := congrArg (List.dropWhile (fun ch => ch != '/')) he
          rw [(takeWhile_slash_append hc.2).2, (takeWhile_no_slash hd.2).2] at hL
          exact List.cons_ne_nil _ _ hL
        | cons d2 t2 =>
          simp only [joinComps] at he
          have hT := congrArg (List.takeWhile (fun ch => ch != '/')) he
          rw [(takeWhile_slash_append hc.2).1, (takeWhile_slash_append hd.2).1] at hT
          subst hT
          have hL := congrArg (List.dropWhile (fun ch => ch != '/')) he
          rw [(takeWhile_slash_append hc.2).2, (takeWhile_slash_append hc.2).2] at hL
          have hj : joinComps (c2 :: t1) = joinComps (d2 :: t2) := by
            simpa using hL
          have := ih (fun x hx => h1 x (List.mem_cons_of_mem _ hx))
            (fun x hx => h2 x (List.mem_cons_of_mem _ hx)) hj
          rw [this]

theorem joinComps_ne_slash_cons {L : List (List Char)}
    (h : ∀ c ∈ L, c ≠ [] ∧ '/' ∉ c) (t : List Char) :
    joinComps L ≠ '/' :: t := by
  intro he
  rcases joinComps_head h with h0 | ⟨ch, t2, he2, hch⟩
  · rw [h0] at he
    exact List.cons_ne_nil _ _ he.symm
  · rw [he2] at he
    injection he with h1 _
    exact hch h1

theorem render_inj {p q : RPath} (hp : p.wf) (hq : q.wf)
    (h : p.render = q.render) : p = q := by
  obtain ⟨pa, pc⟩ := p
  obtain ⟨qa, qc⟩ := q
  simp only [RPath.wf] at hp hq
  simp only [RPath.render] at h
  cases pa <;> cases qa <;> simp at h
  · rw [joinComps_inj hp hq h]
  · exact absurd h (joinComps_ne_slash_cons hp _)
  · exact absurd h.symm (joinComps_ne_slash_cons hq _)
  · rw [joinComps_inj hp hq h]

theorem stagePath_inj {base : String} {p q : RPath} (hp : p.wf) (hq : q.wf)
    (h : stagePath base p = stagePath base q) : p = q := by
  have hd := congrArg String.data h
  simp only [stagePath, String.data_append, RPath.toStr, List.append_assoc] at hd
  exact render_inj hp hq (List.append_cancel_left (List.append_cancel_left hd))

/-! ## Lemmas about the staging mkdir chain -/

theorem self_mem_mkdirAux (base : String) (abs : Bool) {r : List (List Char)}
    (h : r ≠ []) : stagePath base ⟨abs, r.reverse⟩ ∈ mkdirAux base abs r := by
  cases r with
  | nil => exact absurd rfl h
  | cons c rest => simp [mkdirAux]

theorem anc_mem_mkdirAux (base : String) (abs : Bool) :
    ∀ {r : List (List Char)}, ∀ a ∈ ancAux abs r, stagePath base a ∈ mkdirAux base abs r := by
  intro r
  induction r with
  | nil => simp [ancAux]
  | cons c rest ih =>
    intro a ha
    simp only [ancAux, List.mem_append] at ha
    rcases ha with ha | ha
    · exact List.mem_append_left _ (ih a ha)
    · by_cases hre : rest.isEmpty
      · simp [hre] at ha
      · simp only [hre, if_false, List.mem_singleton, Bool.false_eq_true] at ha
        subst ha
        refine List.mem_append_left _ (self_mem_mkdirAux base abs ?_)
        simpa [List.isEmpty_iff] using hre

theorem anc_cons_mem (base : String) (abs : Bool) {x : List Char}
    {rest : List (List Char)} :
    ∀ a ∈ ancAux abs (x :: rest), stagePath base a ∈ mkdirAux base abs rest := by
  intro a ha
  simp only [ancAux, List.mem_append] at ha
  rcases ha with ha | ha
  · exact anc_mem_mkdirAux base abs a ha
  · by_cases hre : rest.isEmpty
    · simp [hre] at ha
    · simp only [hre, if_false, List.mem_singleton, Bool.false_eq_true] at ha
      subst ha
      exact self_mem_mkdirAux base abs (by simpa [List.isEmpty_iff] using hre)

theorem concat_split {α : Type} {l l₁ l₂ : List α} {y x : α}
    (h : l ++ [y] = l₁ ++ x :: l₂) :
    (l₂ = [] ∧ l₁ = l ∧ x = y) ∨ (∃ l₃, l₂ = l₃ ++ [y] ∧ l = l₁ ++ x :: l₃) := by
  rcases List.eq_nil_or_concat l₂ with rfl | ⟨l₃, z, rfl⟩
  · left
    have := List.append_inj' h (by simp)
    refine ⟨rfl, this.1.symm, ?_⟩
    have h2 := this.2
    injection h2 with h3 _
    exact h3.symm
  · right
    have h2 : l ++ [y] = (l₁ ++ x :: l₃) ++ [z] := by
      rw [h, List.concat_eq_append]
      simp
    have := List.append_inj' h2 (by simp)
    have hy : y = z := by
      simpa using this.2
    refine ⟨l₃, ?_, this.1⟩
    rw [List.concat_eq_append, hy]

theorem mkdirAux_split (base : String) (abs : Bool) :
    ∀ {r : List (List Char)} {l₁ l₂ : List String} {x : String},
      mkdirAux base abs r = l₁ ++ x :: l₂ →
      ∃ t : List (List Char), (∀ c ∈ t, c ∈ r) ∧ t ≠ [] ∧
        x = stagePath base ⟨abs, t.reverse⟩ ∧
        ∀ a ∈ ancAux abs t, stagePath base a ∈ l₁ := by
  intro r
  induction r with
  | nil =>
    intro l₁ l₂ x h
    simp only [mkdirAux] at h
    exact absurd h.symm (List.append_ne_nil_of_right_ne_nil _ (List.cons_ne_nil _ _))
  | cons c rest ih =>
    intro l₁ l₂ x h
    simp only [mkdirAux] at h
    rcases concat_split h with ⟨rfl, rfl, rfl⟩ | ⟨l₃, rfl, h2⟩
    · refine ⟨c :: rest, fun d hd => hd, List.cons_ne_nil _ _, rfl, ?_⟩
      exact anc_cons_mem base abs
    · obtain ⟨t, ht1, ht2, ht3, ht4⟩ := ih h2
      exact ⟨t, fun d hd => List.mem_cons_of_mem _ (ht1 d hd), ht2, ht3, ht4⟩

theorem ancestorsFirst_nil (base : String) : ancestorsFirst base [] := by
  intro l₁ x l₂ h
  exact absurd h (by simp)

theorem ancestorsFirst_append_chain {base : String} {l : List String} {abs : Bool}
    {r : List (List Char)} (hwf : ∀ c ∈ r, c ≠ [] ∧ '/' ∉ c)
    (hl : ancestorsFirst base l) :
    ancestorsFirst base (l ++ mkdirAux base abs r) := by
  intro l₁ x l₂ hsplit p hp hx a ha
  rcases List.append_eq_append_iff.1 hsplit with ⟨a2, ha2, hb2⟩ | ⟨c2, hc2, hd2⟩
  · obtain ⟨t, ht_sub, _, ht_eq, ht_anc⟩ := mkdirAux_split base abs hb2
    have hq_wf : RPath.wf ⟨abs, t.reverse⟩ := by
      intro c hc
      exact hwf c (ht_sub c (List.mem_reverse.1 hc))
    have hpq : p = ⟨abs, t.reverse⟩ :=
      stagePath_inj hp hq_wf (hx.symm.trans ht_eq)
    have ha2m : a ∈ ancAux abs t := by
      have : properAncestors p = ancAux abs t := by
        rw [hpq]
        simp [properAncestors]
      rwa [this] at ha
    rw [ha2]
    exact List.mem_append_right _ (ht_anc a ha2m)
  · cases c2 with
    | nil =>
      have hchain : mkdirAux base abs r = [] ++ x :: l₂ := by
        simpa using hd2.symm
      obtain ⟨t, ht_sub, _, ht_eq, ht_anc⟩ := mkdirAux_split base abs hchain
      have hq_wf : RPath.wf ⟨abs, t.reverse⟩ := by
        intro c hc
        exact hwf c (ht_sub c (List.mem_reverse.1 hc))
      have hpq : p = ⟨abs, t.reverse⟩ :=
        stagePath_inj hp hq_wf (hx.symm.trans ht_eq)
      have ha2m : a ∈ ancAux abs t := by
        have : properAncestors p = ancAux abs t := by
          rw [hpq]
          simp [properAncestors]
        rwa [this] at ha
      exact absurd (ht_anc a ha2m) (List.not_mem_nil _)
    | cons w c3 =>
      have hxw : x = w ∧ l₂ = c3 ++ mkdirAux base abs r := by
        have := hd2
        injection this with h1 h2
        exact ⟨h1, h2⟩
      have hlsplit : l = l₁ ++ x :: c3 := by
        rw [hc2, hxw.1]
      exact hl l₁ x c3 hlsplit p hp hx a ha

/-! ## Faithfulness of the structural recursions to the Rust source -/

theorem RPath.parent_concat (abs : Bool) (l : List (List Char)) (x : List Char) :
    RPath.parent ⟨abs, l ++ [x]⟩ = some ⟨abs, l⟩ := by
  cases l with
  | nil => simp [RPath.parent]
  | cons a t =>
    simp only [RPath.parent, List.cons_append, Option.some.injEq, RPath.mk.injEq, true_and]
    rw [show a :: (t ++ [x]) = (a :: t) ++ [x] from rfl, List.dropLast_concat]

theorem RPath.parent_ne {p q : RPath} (h : p.parent = some q) : p ≠ q := by
  intro he
  subst he
  obtain ⟨abs, comps⟩ := p
  cases comps with
  | nil => simp [RPath.parent] at h
  | cons a t =>
    simp only [RPath.parent, Option.some.injEq, RPath.mk.injEq, true_and] at h
    have := congrArg List.length h
    simp [List.length_dropLast] at this

/-- The parent-directed recursion of `Command::fakeroot_mkdir` as
written in src/fakeroot.rs: nothing to do when `dir` has no parent;
otherwise (when `dir` differs from its parent, which always holds)
recurse on the parent, then push the staging string of `dir` itself. -/
theorem fakeroot_mkdir_parent_step (c : Config) (base : String) (dir : RPath) :
    Command.fakeroot_mkdir c base dir =
      match dir.parent with
      | none => c
      | some parent_dir =>
        if dir = parent_dir then c
        else
          let c1 := Command.fakeroot_mkdir c base parent_dir
          { c1 with fakeroot_mkdirs := c1.fakeroot_mkdirs ++ [stagePath base dir] } := by
  obtain ⟨abs, comps⟩ := dir
  rcases List.eq_nil_or_concat comps with rfl | ⟨l, x, rfl⟩
  · simp [Command.fakeroot_mkdir, RPath.parent, mkdirAux]
  · rw [List.concat_eq_append, RPath.parent_concat]
    have hne : (⟨abs, l ++ [x]⟩ : RPath) ≠ ⟨abs, l⟩ :=
      RPath.parent_ne (RPath.parent_concat abs l x)
    simp only [hne, if_false]
    simp [Command.fakeroot_mkdir, List.reverse_append, mkdirAux, List.reverse_reverse]

/-- The ancestors list follows the same parent-directed recursion:
the proper ancestors of `dir` are those of its parent plus the parent
itself, unless the parent is the filesystem root (or the empty
relative path), which is excluded. -/
theorem properAncestors_parent_step (dir : RPath) :
    properAncestors dir =
      match dir.parent with
      | none => []
      | some parent_dir =>
        properAncestors parent_dir ++
          if parent_dir.comps.isEmpty then [] else [parent_dir] := by
  obtain ⟨abs, comps⟩ := dir
  rcases List.eq_nil_or_concat comps with rfl | ⟨l, x, rfl⟩
  · simp [properAncestors, RPath.parent, ancAux]
  · rw [List.concat_eq_append, RPath.parent_concat]
    simp only [properAncestors, List.reverse_append, List.reverse_cons, List.reverse_nil,
      List.nil_append, List.singleton_append, ancAux, List.reverse_reverse]
    cases l with
    | nil => simp
    | cons a t => simp

/-! ## Registration operations: effect on the directories list -/

theorem RPath.parent_eq_of_comps {p : RPath} {l : List (List Char)} {x : List Char}
    (h : p.comps = l ++ [x]) : p.parent = some ⟨p.absolute, l⟩ := by
  obtain ⟨pa, pc⟩ := p
  simp only at h
  subst h
  exact RPath.parent_concat pa l x

theorem applyOp_ok {c : Config} {base : String} (h : c.fakeroot_base = some base)
    (op : RegOp) :
    ∃ c1, applyOp c op = Except.ok c1 ∧
      c1.fakeroot_base = some base ∧
      (∃ s, c1.fakeroot_mkdirs = c.fakeroot_mkdirs ++ s) ∧
      (ancestorsFirst base c.fakeroot_mkdirs → ancestorsFirst base c1.fakeroot_mkdirs) ∧
      (∀ a ∈ properAncestors (parsePath op.dst), stagePath base a ∈ c1.fakeroot_mkdirs) := by
  cases op with
  | mount s d r =>
    have hwf : ∀ cc ∈ (parsePath d).comps.reverse, cc ≠ [] ∧ '/' ∉ cc := by
      intro cc hcc
      exact parsePath_wf d cc (List.mem_reverse.1 hcc)
    refine ⟨_, by simp only [applyOp, Command.fakeroot_mount, h]; exact rfl, ?_, ?_, ?_, ?_⟩
    · simpa [Command.fakeroot_mkdir] using h
    · exact ⟨_, rfl⟩
    · intro hord
      simpa [Command.fakeroot_mkdir] using ancestorsFirst_append_chain hwf hord
    · intro a ha
      simp only [RegOp.dst, properAncestors] at ha
      simp only [Command.fakeroot_mkdir]
      exact List.mem_append_right _ (anc_mem_mkdirAux base (parsePath d).absolute a ha)
  | mount_file s d r =>
    have hwfp : ∀ cc ∈ (parsePath d).comps, cc ≠ [] ∧ '/' ∉ cc := parsePath_wf d
    rcases List.eq_nil_or_concat (parsePath d).comps with hnil | ⟨l0, x0, hcat⟩
    · have hpar : (parsePath d).parent = none := by
        rw [RPath.parent, hnil]
      refine ⟨_, by simp only [applyOp, Command.fakeroot_mount_file, h, hpar]; exact rfl, ?_, ?_, ?_, ?_⟩
      · rfl
      · exact ⟨[], by simp⟩
      · intro hord
        exact hord
      · intro a ha
        simp only [RegOp.dst, properAncestors, hnil] at ha
        simp [ancAux] at ha
    · rw [List.concat_eq_append] at hcat
      have hpar : (parsePath d).parent = some ⟨(parsePath d).absolute, l0⟩ :=
        RPath.parent_eq_of_comps hcat
      have hwf0 : ∀ cc ∈ l0.reverse, cc ≠ [] ∧ '/' ∉ cc := by
        intro cc hcc
        refine hwfp cc ?_
        rw [hcat]
        exact List.mem_append_left _ (List.mem_reverse.1 hcc)
      refine ⟨_, by simp only [applyOp, Command.fakeroot_mount_file, h, hpar]; exact rfl, ?_, ?_, ?_, ?_⟩
      · simpa [Command.fakeroot_mkdir] using h
      · exact ⟨_, rfl⟩
      · intro hord
        simpa [Command.fakeroot_mkdir] using
          ancestorsFirst_append_chain hwf0 hord
      · intro a ha
        simp only [RegOp.dst, properAncestors, hcat, List.reverse_append, List.reverse_cons,
          List.reverse_nil, List.nil_append, List.singleton_append] at ha
        simp only [Command.fakeroot_mkdir]
        refine List.mem_append_right _ ?_
        exact @anc_cons_mem base (parsePath d).absolute x0 l0.reverse a ha
  | mount_filesystem f d =>
    have hwf : ∀ cc ∈ (parsePath d).comps.reverse, cc ≠ [] ∧ '/' ∉ cc := by
      intro cc hcc
      exact parsePath_wf d cc (List.mem_reverse.1 hcc)
    refine ⟨_, by simp only [applyOp, Command.fakeroot_filesystem, h]; exact rfl, ?_, ?_, ?_, ?_⟩
    · simpa [Command.fakeroot_mkdir] using h
    · exact ⟨_, rfl⟩
    · intro hord
      simpa [Command.fakeroot_mkdir] using ancestorsFirst_append_chain hwf hord
    · intro a ha
      simp only [RegOp.dst, properAncestors] at ha
      simp only [Command.fakeroot_mkdir]
      exact List.mem_append_right _ (anc_mem_mkdirAux base (parsePath d).absolute a ha)

theorem applyOps_ok {base : String} :
    ∀ (ops : List RegOp) (c c1 : Config), c.fakeroot_base = some base →
      applyOps c ops = Except.ok c1 →
      c1.fakeroot_base = some base ∧
      (∃ s, c1.fakeroot_mkdirs = c.fakeroot_mkdirs ++ s) ∧
      (ancestorsFirst base c.fakeroot_mkdirs → ancestorsFirst base c1.fakeroot_mkdirs) ∧
      (∀ op ∈ ops, ∀ a ∈ properAncestors (parsePath op.dst),
        stagePath base a ∈ c1.fakeroot_mkdirs) := by
  intro ops
  induction ops with
  | nil =>
    intro c c1 hb h
    simp only [applyOps, Except.ok.injEq] at h
    subst h
    exact ⟨hb, ⟨[], by simp⟩, fun x => x, by simp⟩
  | cons op rest ih =>
    intro c c1 hb h
    obtain ⟨c2, hc2, hb2, ⟨s2, hs2⟩, hord2, hmem2⟩ := applyOp_ok hb op
    simp only [applyOps, hc2] at h
    obtain ⟨hb1, ⟨s3, hs3⟩, hord3, hmem3⟩ := ih c2 c1 hb2 h
    refine ⟨hb1, ⟨s2 ++ s3, by rw [hs3, hs2, List.append_assoc]⟩, ?_, ?_⟩
    · intro hord
      exact hord3 (hord2 hord)
    · intro op2 hop2 a ha
      rcases List.mem_cons.1 hop2 with rfl | hop2
      · rw [hs3]
        exact List.mem_append_left _ (hmem2 a ha)
      · exact hmem3 op2 hop2 a ha

/-! ## Lemmas about the builder phases -/

theorem attachPhase_all_ok {env : SyscallEnv} :
    ∀ {ms : List FakeRootMount}, (∀ m ∈ ms, env (attachEvent m) ≥ 0) →
      attachPhase env ms = (ms.map attachEvent, true) := by
  intro ms
  induction ms with
  | nil => intro _; rfl
  | cons m rest ih =>
    intro h
    have hm : ¬ env (attachEvent m) < 0 :=
      Int.not_lt.mpr (h m (List.mem_cons_self _ _))
    simp only [attachPhase, hm, if_false]
    rw [ih (fun x hx => h x (List.mem_cons_of_mem _ hx))]
    rfl

theorem remountPhase_all_ok {env : SyscallEnv} :
    ∀ {ms : List FakeRootMount},
      (∀ m ∈ ms, m.readonly = true → env (remountEvent m) ≥ 0) →
      remountPhase env ms =
        ((ms.filter (fun m => m.readonly)).map remountEvent, true) := by
  intro ms
  induction ms with
  | nil => intro _; rfl
  | cons m rest ih =>
    intro h
    by_cases hro : m.readonly
    · have hm : ¬ env (remountEvent m) < 0 :=
        Int.not_lt.mpr (h m (List.mem_cons_self _ _) hro)
    
      simp only [remountPhase, hro, if_true, hm, if_false, List.filter_cons_of_pos,
        List.map_cons]
      rw [ih (fun x hx hx2 => h x (List.mem_cons_of_mem _ hx) hx2)]
    · simp only [remountPhase, hro, if_false, Bool.false_eq_true]
      rw [List.filter_cons_of_neg (by simpa using hro)]
      exact ih (fun x hx hx2 => h x (List.mem_cons_of_mem _ hx) hx2)

theorem remountPhase_ok_iff {env : SyscallEnv} :
    ∀ {ms : List FakeRootMount},
      (remountPhase env ms).2 = true ↔
        ∀ m ∈ ms, m.readonly = true → env (remountEvent m) ≥ 0 := by
  intro ms
  induction ms with
  | nil => simp [remountPhase]
  | cons m rest ih =>
    by_cases hro : m.readonly
    · by_cases he : env (remountEvent m) < 0
      · simp only [remountPhase, hro, if_true, he]
        constructor
        · intro h
          exact absurd h (by simp)
        · intro h
          exact absurd (h m (List.mem_cons_self _ _) hro) (Int.not_le.mpr he)
      · simp only [remountPhase, hro, if_true, he, if_false]
        constructor
        · intro h x hx hx2
          rcases List.mem_cons.1 hx with rfl | hx
          · exact Int.not_lt.mp he
          · exact ih.1 h x hx hx2
        · intro h
          exact ih.2 (fun x hx hx2 => h x (List.mem_cons_of_mem _ hx) hx2)
    · simp only [remountPhase, hro, if_false, Bool.false_eq_true]
      constructor
      · intro h x hx hx2
        rcases List.mem_cons.1 hx with rfl | hx
        · exact absurd hx2 (by simpa using hro)
        · exact ih.1 h x hx hx2
      · intro h
        exact ih.2 (fun x hx hx2 => h x (List.mem_cons_of_mem _ hx) hx2)

theorem remountPhase_first_fail {env : SyscallEnv} {m : FakeRootMount}
    (hro : m.readonly = true) (he : env (remountEvent m) < 0) :
    ∀ {ms1 ms2 : List FakeRootMount},
      (∀ x ∈ ms1, x.readonly = true → env (remountEvent x) ≥ 0) →
      remountPhase env (ms1 ++ m :: ms2) =
        ((ms1.filter (fun x => x.readonly)).map remountEvent ++ [remountEvent m],
         false) := by
  intro ms1
  induction ms1 with
  | nil =>
    intro ms2 _
    simp only [List.nil_append, remountPhase, hro, if_true, he, List.filter_nil,
      List.map_nil]
  | cons x rest ih =>
    intro ms2 h
    by_cases hx : x.readonly
    · have hxe : ¬ env (remountEvent x) < 0 :=
        Int.not_lt.mpr (h x (List.mem_cons_self _ _) hx)
      simp only [List.cons_append, remountPhase, hx, if_true, hxe, if_false,
        List.filter_cons_of_pos, List.map_cons]
      rw [List.append_eq, ih (fun y hy hy2 => h y (List.mem_cons_of_mem _ hy) hy2)]
    · simp only [List.cons_append, remountPhase, hx, if_false, Bool.false_eq_true]
      rw [List.filter_cons_of_neg (by simpa using hx)]
      exact ih (fun y hy hy2 => h y (List.mem_cons_of_mem _ hy) hy2)

theorem remountPhase_events {env : SyscallEnv} :
    ∀ {ms : List FakeRootMount}, ∀ e ∈ (remountPhase env ms).1,
      ∃ m, m ∈ ms ∧ m.readonly = true ∧ e = remountEvent m := by
  intro ms
  induction ms with
  | nil => simp [remountPhase]
  | cons m rest ih =>
    intro e he
    by_cases hro : m.readonly
    · by_cases hef : env (remountEvent m) < 0
      · simp only [remountPhase, hro, if_true, hef] at he
        rcases List.mem_singleton.1 he with rfl
        exact ⟨m, List.mem_cons_self _ _, hro, rfl⟩
      · simp only [remountPhase, hro, if_true, hef, if_false, List.mem_cons] at he
        rcases he with rfl | he
        · exact ⟨m, List.mem_cons_self _ _, hro, rfl⟩
        · obtain ⟨x, hx, hx2, hx3⟩ := ih e he
          exact ⟨x, List.mem_cons_of_mem _ hx, hx2, hx3⟩
    · simp only [remountPhase, hro, if_false, Bool.false_eq_true] at he
      obtain ⟨x, hx, hx2, hx3⟩ := ih e he
      exact ⟨x, List.mem_cons_of_mem _ hx, hx2, hx3⟩

theorem build_fakeroot_reaches {env : SyscallEnv} {base : String}
    {mkdirs touchs : List String} {ms : List FakeRootMount}
    (h1 : env privateTreeEvent ≥ 0) (h2 : env (tmpfsEvent base) ≥ 0)
    (h3 : ∀ m ∈ ms, env (attachEvent m) ≥ 0)
    (h4 : (rootSwitch env base).2 = true) :
    build_fakeroot env base mkdirs touchs ms =
      ([Sys.sysMkdir base 511] ++ [privateTreeEvent, tmpfsEvent base] ++
        mkdirs.map (fun d => Sys.sysMkdir d 511) ++
        (touchs.map (touchTrace env)).flatten ++
        ms.map attachEvent ++ (rootSwitch env base).1 ++ [rootRemountEvent] ++
        (remountPhase env ms).1,
       (remountPhase env ms).2) := by
  unfold build_fakeroot
  rw [attachPhase_all_ok h3]
  simp only [Int.not_lt.mpr h1, if_false, Int.not_lt.mpr h2, h4]
  simp [List.append_assoc]

theorem build_fakeroot_snd {env : SyscallEnv} {base : String}
    {mkdirs touchs : List String} {ms : List FakeRootMount}
    (h1 : env privateTreeEvent ≥ 0) (h2 : env (tmpfsEvent base) ≥ 0)
    (h3 : ∀ m ∈ ms, env (attachEvent m) ≥ 0) :
    (build_fakeroot env base mkdirs touchs ms).2 =
      ((rootSwitch env base).2 && (remountPhase env ms).2) := by
  unfold build_fakeroot
  rw [attachPhase_all_ok h3]
  simp only [Int.not_lt.mpr h1, if_false, Int.not_lt.mpr h2]
  cases hts : (rootSwitch env base).2 <;> simp [hts]

/-! ## The claims -/

/-- Claim C3: with fakeroot not enabled (no base set), each of the three
registration operations fails with the precondition-violation panic
message instead of returning an updated policy; since the panic is
raised before any field is touched, no mutated policy value exists on
this branch and the fakeroot fields stay unchanged. -/
theorem claim3_registration_requires_enable
    (c : Config) (src dst fstype : String) (ro : Bool)
    (h : c.fakeroot_base = none) :
    Command.fakeroot_mount c src dst ro =
      Except.error "call fakeroot_enable() first!" ∧
    Command.fakeroot_mount_file c src dst ro =
      Except.error "call fakeroot_enable() first!" ∧
    Command.fakeroot_filesystem c fstype dst =
      Except.error "call fakeroot_enable() first!" := by
  refine ⟨?_, ?_, ?_⟩ <;>
    simp [Command.fakeroot_mount, Command.fakeroot_mount_file,
      Command.fakeroot_filesystem, h, enableFirstMsg]

/-- Witness for claim C3 on the default policy, which has no base. -/
theorem claim3_witness :
    Config.default.fakeroot_base = none ∧
    Command.fakeroot_mount Config.default "/bin" "/bin" true =
      Except.error "call fakeroot_enable() first!" ∧
    Command.fakeroot_mount_file Config.default "/bin" "/bin" true =
      Except.error "call fakeroot_enable() first!" ∧
    Command.fakeroot_filesystem Config.default "tmpfs" "/bin" =
      Except.error "call fakeroot_enable() first!" :=
  ⟨rfl, claim3_registration_requires_enable Config.default "/bin" "/bin" "tmpfs" true rfl⟩

/-- Claim C10: on a policy with a base set, each registration operation
succeeds and produces exactly the input policy with new elements
appended at the end of the fakeroot lists it touches; every other
field, including the base and all previously recorded entries with
their positions, is unchanged. -/
theorem claim10_append_only
    (c : Config) (base src dst fstype : String) (ro : Bool)
    (h : c.fakeroot_base = some base) :
    (∃ ds e, Command.fakeroot_mount c src dst ro =
      Except.ok { c with
        fakeroot_mkdirs := c.fakeroot_mkdirs ++ ds,
        fakeroot_mounts := c.fakeroot_mounts ++ [e] }) ∧
    (∃ ds t e, Command.fakeroot_mount_file c src dst ro =
      Except.ok { c with
        fakeroot_mkdirs := c.fakeroot_mkdirs ++ ds,
        fakeroot_touchs := c.fakeroot_touchs ++ [t],
        fakeroot_mounts := c.fakeroot_mounts ++ [e] }) ∧
    (∃ ds e, Command.fakeroot_filesystem c fstype dst =
      Except.ok { c with
        fakeroot_mkdirs := c.fakeroot_mkdirs ++ ds,
        fakeroot_mounts := c.fakeroot_mounts ++ [e] }) := by
  refine ⟨⟨mkdirAux base (parsePath dst).absolute (parsePath dst).comps.reverse,
      { mountpoint := dst
        mountpoint_outer := base ++ "/" ++ dst
        src := src
        readonly := ro
        is_special_fs := false }, ?_⟩, ?_, 
    ⟨mkdirAux base (parsePath dst).absolute (parsePath dst).comps.reverse,
      { mountpoint := dst
        mountpoint_outer := base ++ "/" ++ dst
        src := fstype
        readonly := false
        is_special_fs := true }, ?_⟩⟩
  · simp [Command.fakeroot_mount, Command.fakeroot_mkdir, h]
  · cases hpp : (parsePath dst).parent with
    | none =>
      refine ⟨[], base ++ "/" ++ dst,
        { mountpoint := dst
          mountpoint_outer := base ++ "/" ++ dst
          src := src
          readonly := ro
          is_special_fs := false }, ?_⟩
      simp [Command.fakeroot_mount_file, Command.fakeroot_mkdir, h, hpp]
    | some pd =>
      refine ⟨mkdirAux base pd.absolute pd.comps.reverse, base ++ "/" ++ dst,
        { mountpoint := dst
          mountpoint_outer := base ++ "/" ++ dst
          src := src
          readonly := ro
          is_special_fs := false }, ?_⟩
      simp [Command.fakeroot_mount_file, Command.fakeroot_mkdir, h, hpp]
  · simp [Command.fakeroot_filesystem, Command.fakeroot_mkdir, h]

/-- Witness for claim C10 on the policy enabled at "/sandbox". -/
theorem claim10_witness :
    (∃ ds e, Command.fakeroot_mount sandboxCfg "/bin" "/bin" true =
      Except.ok { sandboxCfg with
        fakeroot_mkdirs := sandboxCfg.fakeroot_mkdirs ++ ds,
        fakeroot_mounts := sandboxCfg.fakeroot_mounts ++ [e] }) ∧
    (∃ ds t e, Command.fakeroot_mount_file sandboxCfg "/bin" "/bin" true =
      Except.ok { sandboxCfg with
        fakeroot_mkdirs := sandboxCfg.fakeroot_mkdirs ++ ds,
        fakeroot_touchs := sandboxCfg.fakeroot_touchs ++ [t],
        fakeroot_mounts := sandboxCfg.fakeroot_mounts ++ [e] }) ∧
    (∃ ds e, Command.fakeroot_filesystem sandboxCfg "tmpfs" "/bin" =
      Except.ok { sandboxCfg with
        fakeroot_mkdirs := sandboxCfg.fakeroot_mkdirs ++ ds,
        fakeroot_mounts := sandboxCfg.fakeroot_mounts ++ [e] }) :=
  claim10_append_only sandboxCfg "/sandbox" "/bin" "/bin" "tmpfs" true rfl

/-- Claim C7: every mount entry created by `fakeroot_filesystem` is a
virtual-filesystem entry with `readonly` equal to `false`, whatever the
arguments; and the per-mountpoint read-only remount loop of the build
only ever emits remounts for entries whose `readonly` flag is `true`,
so no virtual-filesystem entry is ever subject to it. -/
theorem claim7_filesystem_never_readonly
    (c : Config) (fstype dst base : String) (h : c.fakeroot_base = some base)
    (env : SyscallEnv) (ms : List FakeRootMount) (e : Sys)
    (he : e ∈ (remountPhase env ms).1) :
    (∃ c1, Command.fakeroot_filesystem c fstype dst = Except.ok c1 ∧
      c1.fakeroot_mounts = c.fakeroot_mounts ++
        [{ mountpoint := dst
           mountpoint_outer := base ++ "/" ++ dst
           src := fstype
           readonly := false
           is_special_fs := true }]) ∧
    (∃ m, m ∈ ms ∧ m.readonly = true ∧ e = remountEvent m) := by
  constructor
  · refine ⟨_, by simp only [Command.fakeroot_filesystem, h]; exact rfl, ?_⟩
    rfl
  · exact remountPhase_events e he

/-- Witness for claim C7: a tmpfs registration at "/tmp" and a remount
trace containing exactly the read-only remount of a read-only bind
entry. -/
theorem claim7_witness :
    (∃ c1, Command.fakeroot_filesystem sandboxCfg "tmpfs" "/tmp" = Except.ok c1 ∧
      c1.fakeroot_mounts = sandboxCfg.fakeroot_mounts ++
        [{ mountpoint := "/tmp"
           mountpoint_outer := "/sandbox" ++ "/" ++ "/tmp"
           src := "tmpfs"
           readonly := false
           is_special_fs := true }]) ∧
    (∃ m, m ∈ [roBinMount] ∧ m.readonly = true ∧
      remountEvent roBinMount = remountEvent m) :=
  claim7_filesystem_never_readonly sandboxCfg "tmpfs" "/tmp" "/sandbox" rfl
    envAllOk [roBinMount] (remountEvent roBinMount) (by decide)

/-- Claim C9: in the classic-chroot fallback (pivot primitive failed),
the `chdir` into the staging base and the bind mount of "." onto "/"
are both performed but their results are ignored: the outcome of the
root switch equals exactly the success of `chroot(".")`, and two
kernels that fail the pivot and agree on the `chroot` result produce
the same outcome no matter what their `chdir` and mount calls return. -/
theorem claim9_fallback_chroot_decides
    (env env2 : SyscallEnv) (base : String)
    (h : env (Sys.sysPivotRoot base base) < 0)
    (h2 : env2 (Sys.sysPivotRoot base base) < 0)
    (hc : env (Sys.sysChroot ".") = env2 (Sys.sysChroot ".")) :
    ((rootSwitch env base).2 = decide (env (Sys.sysChroot ".") ≥ 0)) ∧
    ((rootSwitch env base).2 = (rootSwitch env2 base).2) ∧
    Sys.sysChdir base ∈ (rootSwitch env base).1 ∧
    Sys.sysMount (some ".") "/" none 0 ∈ (rootSwitch env base).1 := by
  have hn : ¬ env (Sys.sysPivotRoot base base) ≥ 0 := Int.not_le.mpr h
  have hn2 : ¬ env2 (Sys.sysPivotRoot base base) ≥ 0 := Int.not_le.mpr h2
  refine ⟨?_, ?_, ?_, ?_⟩
  · simp [rootSwitch, hn]
  · simp [rootSwitch, hn, hn2, hc]
  · simp [rootSwitch, hn]
  · simp [rootSwitch, hn]

/-- Witness for claim C9: two concrete kernels without the pivot
primitive, disagreeing on `chdir` and on the detach-unmount, agreeing
on `chroot`. -/
theorem claim9_witness :
    ((rootSwitch envPivotFails "/sb").2 =
      decide (envPivotFails (Sys.sysChroot ".") ≥ 0)) ∧
    ((rootSwitch envPivotFails "/sb").2 = (rootSwitch envPivotChdirFail "/sb").2) ∧
    Sys.sysChdir "/sb" ∈ (rootSwitch envPivotFails "/sb").1 ∧
    Sys.sysMount (some ".") "/" none 0 ∈ (rootSwitch envPivotFails "/sb").1 :=
  claim9_fallback_chroot_decides envPivotFails envPivotChdirFail "/sb"
    (by decide) (by decide) (by decide)

/-- Claim C6: in the root-switch step, a successful pivot is followed
only by the best-effort detach-unmount and the step succeeds whatever
the unmount returns; a failed pivot triggers the fallback sequence
`chdir(base)`, bind mount of "." onto "/", then `chroot(".")`, whose
`chroot` result alone decides the step; if both the pivot and the
fallback `chroot` fail, the whole build fails, and once the switch
succeeded the build outcome is decided solely by the read-only remount
loop. -/
theorem claim6_rootswitch_fallback
    (env : SyscallEnv) (base : String) (mkdirs touchs : List String)
    (ms : List FakeRootMount)
    (h1 : env privateTreeEvent ≥ 0) (h2 : env (tmpfsEvent base) ≥ 0)
    (h3 : ∀ x ∈ ms, env (attachEvent x) ≥ 0) :
    (env (Sys.sysPivotRoot base base) ≥ 0 →
      rootSwitch env base =
        ([Sys.sysPivotRoot base base, Sys.sysUmount2 "/" MNT_DETACH], true)) ∧
    (env (Sys.sysPivotRoot base base) < 0 →
      rootSwitch env base =
        ([Sys.sysPivotRoot base base, Sys.sysChdir base,
          Sys.sysMount (some ".") "/" none 0, Sys.sysChroot "."],
         decide (env (Sys.sysChroot ".") ≥ 0))) ∧
    (env (Sys.sysPivotRoot base base) < 0 → env (Sys.sysChroot ".") < 0 →
      (build_fakeroot env base mkdirs touchs ms).2 = false) ∧
    ((rootSwitch env base).2 = true →
      ((build_fakeroot env base mkdirs touchs ms).2 = true ↔
        (remountPhase env ms).2 = true)) := by
  refine ⟨?_, ?_, ?_, ?_⟩
  · intro hp
    simp [rootSwitch, hp]
  · intro hp
    simp [rootSwitch, Int.not_le.mpr hp]
  · intro hp hcr
    rw [build_fakeroot_snd h1 h2 h3]
    have hs : (rootSwitch env base).2 = false := by
      simp [rootSwitch, Int.not_le.mpr hp, Int.not_le.mpr hcr]
    rw [hs]
    rfl
  · intro hs
    rw [build_fakeroot_snd h1 h2 h3, hs]
    simp

/-- Witness for claim C6: the kernel that lacks the pivot primitive and
fails the detach-unmount, on an empty plan. -/
theorem claim6_witness :
    (envPivotChdirFail (Sys.sysPivotRoot "/sb" "/sb") ≥ 0 →
      rootSwitch envPivotChdirFail "/sb" =
        ([Sys.sysPivotRoot "/sb" "/sb", Sys.sysUmount2 "/" MNT_DETACH], true)) ∧
    (envPivotChdirFail (Sys.sysPivotRoot "/sb" "/sb") < 0 →
      rootSwitch envPivotChdirFail "/sb" =
        ([Sys.sysPivotRoot "/sb" "/sb", Sys.sysChdir "/sb",
          Sys.sysMount (some ".") "/" none 0, Sys.sysChroot "."],
         decide (envPivotChdirFail (Sys.sysChroot ".") ≥ 0))) ∧
    (envPivotChdirFail (Sys.sysPivotRoot "/sb" "/sb") < 0 →
      envPivotChdirFail (Sys.sysChroot ".") < 0 →
      (build_fakeroot envPivotChdirFail "/sb" [] [] []).2 = false) ∧
    ((rootSwitch envPivotChdirFail "/sb").2 = true →
      ((build_fakeroot envPivotChdirFail "/sb" [] [] []).2 = true ↔
        (remountPhase envPivotChdirFail []).2 = true)) :=
  claim6_rootswitch_fallback envPivotChdirFail "/sb" [] [] []
    (by decide) (by decide) (by decide)

/-- Claim C2: starting from a freshly enabled policy, any sequence of
registrations leaves a directories list that contains the staging
string of every proper ancestor of every registered destination (down
to the filesystem root, exclusive), and in which every entry is
preceded by the entries for all proper ancestors of the directory it
stages, regardless of the order of the calls. -/
theorem claim2_ancestors_topological
    (b : String) (ops : List RegOp) (c1 : Config)
    (h : applyOps (Command.fakeroot_enable Config.default b) ops = Except.ok c1) :
    (∀ op ∈ ops, ∀ a ∈ properAncestors (parsePath op.dst),
      stagePath b a ∈ c1.fakeroot_mkdirs) ∧
    ancestorsFirst b c1.fakeroot_mkdirs := by
  obtain ⟨_, _, hord, hmem⟩ :=
    applyOps_ok ops (Command.fakeroot_enable Config.default b) c1 rfl h
  exact ⟨hmem, hord (ancestorsFirst_nil b)⟩

/-- Witness for claim C2: a concrete mixed registration sequence after
enabling at "/sandbox". -/
theorem claim2_witness :
    (∀ op ∈ claim2ops, ∀ a ∈ properAncestors (parsePath op.dst),
      stagePath "/sandbox" a ∈ claim2cfg.fakeroot_mkdirs) ∧
    ancestorsFirst "/sandbox" claim2cfg.fakeroot_mkdirs :=
  claim2_ancestors_topological "/sandbox" claim2ops claim2cfg rfl

/-- Claim C1 counterexample: after enabling at "/sandbox", the single
call registering "/bin" at "/bin" read-only leaves the directories
list NOT empty: the staging directory of the mount target itself,
rendered "/sandbox//bin" (base, separator, absolute destination), is
recorded, and it is also the staging path stored in the mount entry,
which therefore differs bytewise from the "/sandbox/bin" of the claim. -/
theorem claim1_counterexample :
    scenarioA.toOption.map
        (fun c => (c.fakeroot_mkdirs, c.fakeroot_mounts.map
          (fun m => m.mountpoint_outer))) =
      some (["/sandbox//bin"], ["/sandbox//bin"]) ∧
    (["/sandbox//bin"] : List String) ≠ [] ∧
    ("/sandbox//bin" : String) ≠ "/sandbox/bin" := by
  refine ⟨by decide, by decide, by decide⟩

/-- Claim C1 amended: the call records exactly one directory entry,
the staging string "/sandbox//bin" of the mount target itself
(ancestor derivation includes the destination, and the staging string
joins base and the absolute destination with a separator, hence the
doubled slash), no file entry, and exactly the bind mount entry with
mountpoint "/bin", staging path "/sandbox//bin", source "/bin",
readonly true. -/
theorem claim1_amended :
    scenarioA = Except.ok { sandboxCfg with
      fakeroot_mkdirs := ["/sandbox//bin"],
      fakeroot_mounts := [{ mountpoint := "/bin"
                            mountpoint_outer := "/sandbox//bin"
                            src := "/bin"
                            readonly := true
                            is_special_fs := false }] } := by
  rfl

/-- Claim C8 counterexample: the registration of the file
"/dev/urandom" stages the parent directory as the string
"/sandbox//dev" and the placeholder file as "/sandbox//dev/urandom"
(with a doubled separator), so the exact strings "/sandbox/dev" and
"/sandbox/dev/urandom" of the claim are not in the recorded lists. -/
theorem claim8_counterexample :
    scenarioB.toOption.map (fun c => (c.fakeroot_mkdirs, c.fakeroot_touchs)) =
      some (["/sandbox//dev"], ["/sandbox//dev/urandom"]) ∧
    ("/sandbox/dev" : String) ∉ (["/sandbox//dev"] : List String) ∧
    ("/sandbox/dev/urandom" : String) ∉ (["/sandbox//dev/urandom"] : List String) := by
  refine ⟨by decide, by decide, by decide⟩

/-- Claim C8 amended: the call adds the parent staging directory
"/sandbox//dev" (path-equivalent to "/sandbox/dev", with the doubled
separator produced by joining base and the absolute path) to the
directories list, adds "/sandbox//dev/urandom" to the files list, and
records a bind mount entry for "/dev/urandom" whose readonly field is
false. -/
theorem claim8_amended :
    scenarioB = Except.ok { sandboxCfg with
      fakeroot_mkdirs := ["/sandbox//dev"],
      fakeroot_touchs := ["/sandbox//dev/urandom"],
      fakeroot_mounts := [{ mountpoint := "/dev/urandom"
                            mountpoint_outer := "/sandbox//dev/urandom"
                            src := "/dev/urandom"
                            readonly := false
                            is_special_fs := false }] } := by
  rfl

/-! ## Distinguishing the read-only remount from all other build events -/

theorem remountEvent_ne_priv (m : FakeRootMount) :
    remountEvent m ≠ privateTreeEvent := by
  intro hcon
  rw [remountEvent, privateTreeEvent] at hcon
  injection hcon with _ _ _ h4
  exact absurd h4 (by decide)

theorem remountEvent_ne_tmpfs (m : FakeRootMount) (b : String) :
    remountEvent m ≠ tmpfsEvent b := by
  intro hcon
  rw [remountEvent, tmpfsEvent] at hcon
  injection hcon with h1 _ _ _
  simp at h1

theorem remountEvent_ne_attach (m x : FakeRootMount) :
    remountEvent m ≠ attachEvent x := by
  intro hcon
  by_cases hx : x.is_special_fs
  · rw [remountEvent, attachEvent, if_pos hx] at hcon
    injection hcon with h1 _ _ _
    simp at h1
  · rw [remountEvent, attachEvent, if_neg hx] at hcon
    injection hcon with _ _ _ h4
    exact absurd h4 (by decide)

theorem remountEvent_ne_dotMount (m : FakeRootMount) :
    remountEvent m ≠ Sys.sysMount (some ".") "/" none 0 := by
  intro hcon
  rw [remountEvent] at hcon
  injection hcon with _ _ _ h4
  exact absurd h4 (by decide)

theorem remountEvent_ne_rootRemount {m : FakeRootMount}
    (h : m.mountpoint ≠ "/") : remountEvent m ≠ rootRemountEvent := by
  intro hcon
  rw [remountEvent, rootRemountEvent] at hcon
  injection hcon with _ h2 _ _
  exact h h2

theorem remountEvent_not_mem_touch (m : FakeRootMount) (env : SyscallEnv)
    (f : String) : remountEvent m ∉ touchTrace env f := by
  rw [touchTrace]
  by_cases hf : env (Sys.sysOpen f (O_RDONLY ||| O_CREAT ||| O_CLOEXEC)) ≥ 0 <;>
    simp [hf, remountEvent]

theorem remountEvent_not_mem_rootSwitch (m : FakeRootMount) (env : SyscallEnv)
    (base : String) : remountEvent m ∉ (rootSwitch env base).1 := by
  rw [rootSwitch]
  by_cases hp : env (Sys.sysPivotRoot base base) ≥ 0
  · simp [hp, remountEvent]
  · simp only [hp, if_false, List.mem_cons, List.not_mem_nil, or_false]
    intro hcon
    rcases hcon with h | h | h | h
    · rw [remountEvent] at h
      exact Sys.noConfusion h
    · rw [remountEvent] at h
      exact Sys.noConfusion h
    · exact remountEvent_ne_dotMount m h
    · rw [remountEvent] at h
      exact Sys.noConfusion h

theorem remountEvent_not_mem_setup (m : FakeRootMount) (env : SyscallEnv)
    (base : String) (mkdirs touchs : List String) (ms : List FakeRootMount) :
    remountEvent m ∉
      ([Sys.sysMkdir base 511] ++ [privateTreeEvent, tmpfsEvent base] ++
        mkdirs.map (fun d => Sys.sysMkdir d 511) ++
        (touchs.map (touchTrace env)).flatten ++ ms.map attachEvent) := by
  intro hcon
  rcases List.mem_append.1 hcon with h01 | hAttach
  · rcases List.mem_append.1 h01 with h02 | hTouch
    · rcases List.mem_append.1 h02 with h03 | hDirs
      · rcases List.mem_append.1 h03 with hMk | hPT
        · exact Sys.noConfusion (List.mem_singleton.1 hMk)
        · rcases List.mem_cons.1 hPT with h | h
          · exact remountEvent_ne_priv m h
          · exact remountEvent_ne_tmpfs m base (List.mem_singleton.1 h)
      · obtain ⟨d, _, hd⟩ := List.mem_map.1 hDirs
        exact Sys.noConfusion hd
    · obtain ⟨t, ht, hmem2⟩ := List.mem_flatten.1 hTouch
      obtain ⟨f, _, hf⟩ := List.mem_map.1 ht
      rw [← hf] at hmem2
      exact remountEvent_not_mem_touch m env f hmem2
  · obtain ⟨x, _, hx⟩ := List.mem_map.1 hAttach
    exact remountEvent_ne_attach m x hx.symm

/-- Claim C5: every bind entry is attached with a recursive private
bind mount without the read-only flag (the attach flags are exactly
MS_PRIVATE, MS_REC and MS_BIND, whose union has no MS_RDONLY bit), the
read-only property is a separate remount with flags MS_REMOUNT,
MS_BIND and MS_RDONLY whose target is the in-sandbox mountpoint, not
the staging path, and in a successful build every attach event happens
strictly before all read-only remounts. -/
theorem claim5_bind_then_remount
    (env : SyscallEnv) (base : String) (mkdirs touchs : List String)
    (ms : List FakeRootMount) (m : FakeRootMount) (hm : m ∈ ms)
    (hbind : m.is_special_fs = false)
    (h1 : env privateTreeEvent ≥ 0) (h2 : env (tmpfsEvent base) ≥ 0)
    (h3 : ∀ x ∈ ms, env (attachEvent x) ≥ 0)
    (h4 : (rootSwitch env base).2 = true)
    (h5 : ∀ x ∈ ms, x.readonly = true → env (remountEvent x) ≥ 0) :
    attachEvent m =
      Sys.sysMount (some m.src) m.mountpoint_outer none
        (MS_PRIVATE ||| MS_REC ||| MS_BIND) ∧
    MS_RDONLY &&& (MS_PRIVATE ||| MS_REC ||| MS_BIND) = 0 ∧
    remountEvent m =
      Sys.sysMount (some m.mountpoint) m.mountpoint none
        (MS_REMOUNT ||| MS_BIND ||| MS_RDONLY) ∧
    ∃ l₁ l₂, (build_fakeroot env base mkdirs touchs ms).1 = l₁ ++ l₂ ∧
      attachEvent m ∈ l₁ ∧ remountEvent m ∉ l₁ ∧
      (m.readonly = true → remountEvent m ∈ l₂) := by
  refine ⟨by rw [attachEvent, if_neg (by simp [hbind])], by decide, rfl, ?_⟩
  rw [build_fakeroot_reaches h1 h2 h3 h4]
  refine ⟨[Sys.sysMkdir base 511] ++ [privateTreeEvent, tmpfsEvent base] ++
      mkdirs.map (fun d => Sys.sysMkdir d 511) ++
      (touchs.map (touchTrace env)).flatten ++ ms.map attachEvent,
    (rootSwitch env base).1 ++ [rootRemountEvent] ++ (remountPhase env ms).1,
    by simp [List.append_assoc], ?_, ?_, ?_⟩
  · exact List.mem_append_right _ (List.mem_map_of_mem _ hm)
  · exact remountEvent_not_mem_setup m env base mkdirs touchs ms
  · intro hro
    refine List.mem_append_right _ ?_
    rw [remountPhase_all_ok h5]
    exact List.mem_map_of_mem _ (List.mem_filter.mpr ⟨hm, by simp [hro]⟩)

/-- Witness for claim C5: an all-succeeding kernel and the single
read-only bind entry for "/bin". -/
theorem claim5_witness :
    attachEvent roBinMount =
      Sys.sysMount (some roBinMount.src) roBinMount.mountpoint_outer none
        (MS_PRIVATE ||| MS_REC ||| MS_BIND) ∧
    MS_RDONLY &&& (MS_PRIVATE ||| MS_REC ||| MS_BIND) = 0 ∧
    remountEvent roBinMount =
      Sys.sysMount (some roBinMount.mountpoint) roBinMount.mountpoint none
        (MS_REMOUNT ||| MS_BIND ||| MS_RDONLY) ∧
    ∃ l₁ l₂, (build_fakeroot envAllOk "/sb" [] [] [roBinMount]).1 = l₁ ++ l₂ ∧
      attachEvent roBinMount ∈ l₁ ∧ remountEvent roBinMount ∉ l₁ ∧
      (roBinMount.readonly = true → remountEvent roBinMount ∈ l₂) :=
  claim5_bind_then_remount envAllOk "/sb" [] [] [roBinMount] roBinMount
    (by decide) (by decide) (by decide) (by decide) (by decide) (by decide)
    (by decide)

/-- Claim C4: when the build gets through mount attachment and the root
switch, a failing read-only remount of a read-only entry makes the
whole build fail; the failing remount (the first failing one) appears
exactly once in the syscall trace, so it is never retried; and if every
read-only remount succeeds the build succeeds, so these remounts are
the only fatal condition after the root switch. -/
theorem claim4_readonly_remount_failure_fatal
    (env : SyscallEnv) (base : String) (mkdirs touchs : List String)
    (ms1 ms2 : List FakeRootMount) (m : FakeRootMount)
    (h1 : env privateTreeEvent ≥ 0) (h2 : env (tmpfsEvent base) ≥ 0)
    (h3 : ∀ x ∈ ms1 ++ m :: ms2, env (attachEvent x) ≥ 0)
    (h4 : (rootSwitch env base).2 = true) :
    (m.readonly = true → env (remountEvent m) < 0 →
      (build_fakeroot env base mkdirs touchs (ms1 ++ m :: ms2)).2 = false) ∧
    (m.readonly = true → env (remountEvent m) < 0 →
      (∀ x ∈ ms1, x.readonly = true → env (remountEvent x) ≥ 0) →
      (∀ x ∈ ms1, x.readonly = true → x.mountpoint ≠ m.mountpoint) →
      m.mountpoint ≠ "/" →
      (build_fakeroot env base mkdirs touchs (ms1 ++ m :: ms2)).1.count
        (remountEvent m) = 1) ∧
    ((∀ x ∈ ms1 ++ m :: ms2, x.readonly = true → env (remountEvent x) ≥ 0) →
      (build_fakeroot env base mkdirs touchs (ms1 ++ m :: ms2)).2 = true) := by
  refine ⟨?_, ?_, ?_⟩
  · intro hro he
    rw [build_fakeroot_snd h1 h2 h3, h4, Bool.true_and]
    cases hb : (remountPhase env (ms1 ++ m :: ms2)).2 with
    | false => rfl
    | true =>
      exact absurd (remountPhase_ok_iff.1 hb m (by simp) hro) (Int.not_le.mpr he)
  · intro hro he hfirst hne hroot
    have hT : (build_fakeroot env base mkdirs touchs (ms1 ++ m :: ms2)).1 =
        ([Sys.sysMkdir base 511] ++ [privateTreeEvent, tmpfsEvent base] ++
          mkdirs.map (fun d => Sys.sysMkdir d 511) ++
          (touchs.map (touchTrace env)).flatten ++
          (ms1 ++ m :: ms2).map attachEvent) ++
        ((rootSwitch env base).1 ++ ([rootRemountEvent] ++
          ((ms1.filter (fun x => x.readonly)).map remountEvent ++
            [remountEvent m]))) := by
      rw [build_fakeroot_reaches h1 h2 h3 h4,
        remountPhase_first_fail hro he hfirst]
      simp [List.append_assoc]
    have hsetup0 : List.count (remountEvent m)
        ([Sys.sysMkdir base 511] ++ [privateTreeEvent, tmpfsEvent base] ++
          mkdirs.map (fun d => Sys.sysMkdir d 511) ++
          (touchs.map (touchTrace env)).flatten ++
          (ms1 ++ m :: ms2).map attachEvent) = 0 :=
      List.count_eq_zero.mpr
        (remountEvent_not_mem_setup m env base mkdirs touchs (ms1 ++ m :: ms2))
    have hR : ([rootRemountEvent] : List Sys).count (remountEvent m) = 0 :=
      List.count_eq_zero.mpr (fun hmem =>
        remountEvent_ne_rootRemount hroot (List.mem_singleton.1 hmem))
    have hF : ((ms1.filter (fun x => x.readonly)).map remountEvent).count
        (remountEvent m) = 0 := by
      refine List.count_eq_zero.mpr ?_
      intro hmem
      obtain ⟨x, hx, hxe⟩ := List.mem_map.1 hmem
      have hx2 := List.mem_filter.1 hx
      have hmp : x.mountpoint = m.mountpoint := by
        simp only [remountEvent, Sys.sysMount.injEq, Option.some.injEq, and_true,
          and_self] at hxe
        exact hxe
      exact hne x hx2.1 (by simpa using hx2.2) hmp
    rw [hT, List.count_append, hsetup0, List.count_append,
      List.count_eq_zero.mpr (remountEvent_not_mem_rootSwitch m env base),
      List.count_append, hR, List.count_append, hF]
    simp
  · intro hall
    rw [build_fakeroot_snd h1 h2 h3, h4, Bool.true_and]
    exact remountPhase_ok_iff.2 hall

/-- Witness for claim C4: a kernel in which exactly the read-only
remount of the "/bin" entry fails, with that entry as the whole plan. -/
theorem claim4_witness :
    (roBinMount.readonly = true → envRemountFails (remountEvent roBinMount) < 0 →
      (build_fakeroot envRemountFails "/sb" [] [] ([] ++ roBinMount :: [])).2 = false) ∧
    (roBinMount.readonly = true → envRemountFails (remountEvent roBinMount) < 0 →
      (∀ x ∈ ([] : List FakeRootMount), x.readonly = true →
        envRemountFails (remountEvent x) ≥ 0) →
      (∀ x ∈ ([] : List FakeRootMount), x.readonly = true →
        x.mountpoint ≠ roBinMount.mountpoint) →
      roBinMount.mountpoint ≠ "/" →
      (build_fakeroot envRemountFails "/sb" [] [] ([] ++ roBinMount :: [])).1.count
        (remountEvent roBinMount) = 1) ∧
    ((∀ x ∈ ([] ++ roBinMount :: []), x.readonly = true →
      envRemountFails (remountEvent x) ≥ 0) →
      (build_fakeroot envRemountFails "/sb" [] [] ([] ++ roBinMount :: [])).2 = true) :=
  claim4_readonly_remount_failure_fatal envRemountFails "/sb" [] [] [] []
    roBinMount (by decide) (by decide) (by decide) (by decide)
